import Mathlib

/-
  Verification of the RegexPlay multi-engine matching core.

  Shallow embedding of:
    - src/engines/jsEngine.js      (JavaScriptEngine adapter)
    - src/engines/pcreEngine.js    (PCREEngine adapter)
    - src/engines/engineFactory.js (EngineFactory facade and registry)

  Modelling conventions:
    - JS strings are sequences of code units, embedded as List Char.
    - The platform regular-expression primitives (RegExp#exec, PCRERegex#exec,
      pcre.quickMatch) are parameters of the embedded operations: an abstract
      matcher function together with a validity predicate stating the facts
      every real matcher satisfies (a match starts at or after the requested
      position, lies inside the subject, and its text equals the subject slice
      it covers).
    - Wall-clock checks (Date.now against TIMEOUT_MS) are not modelled; those
      branches concern real time. The iteration caps, which are the other
      loop-exit mechanisms in the source, are modelled exactly.
    - The timestamp field of result objects (new Date().toISOString()) and the
      development-only stack field of error objects are omitted: both are
      environment dependent and no claim mentions them.
-/

deriving instance DecidableEq for Except

/-- ASCII lowering, the effect of String.prototype.toLowerCase on the
    characters engine names use -/
def asciiLower (c : Char) : Char :=
  if 'A' ≤ c ∧ c ≤ 'Z' then Char.ofNat (c.toNat + 32) else c

/-- String.prototype.toLowerCase over code units -/
def jsToLowerCase (s : List Char) : List Char := s.map asciiLower

/-- the whitespace String.prototype.trim strips -/
def isJsWhitespace (c : Char) : Bool := c = ' ' ∨ c = '\t' ∨ c = '\n' ∨ c = '\r'

/-- String.prototype.trim over code units -/
def jsTrim (s : List Char) : List Char :=
  ((s.dropWhile isJsWhitespace).reverse.dropWhile isJsWhitespace).reverse

/-- substring of a code-unit sequence: text.substring(s, s+n) -/
def listSlice (text : List Char) (s n : Nat) : List Char :=
  (text.drop s).take n

/-- JS spread over a Set: remove duplicates keeping the first occurrence,
    with an accumulator of already seen elements -/
def dedupSeen {α : Type} [DecidableEq α] (seen : List α) : List α → List α
  | [] => []
  | c :: rest => if c ∈ seen then dedupSeen seen rest else c :: dedupSeen (c :: seen) rest

/-- `[...new Set(arr)]` on a list -/
def dedupKeepFirst {α : Type} [DecidableEq α] (l : List α) : List α :=
  dedupSeen [] l

/-- standardized error object built by createError: message, constructor name,
    operation label (the stack field is omitted, see header) -/
structure ErrObj where
  message : String
  etype : String
  operation : String
deriving DecidableEq, Repr

/-- createError for errors thrown with new Error(...) -/
def createError (message operation : String) : ErrObj :=
  { message := message, etype := "Error", operation := operation }

/-- createError for RegExp compilation failures (SyntaxError instances) -/
def createSyntaxError (message operation : String) : ErrObj :=
  { message := message, etype := "SyntaxError", operation := operation }

/-- standardized match object produced by formatMatch in either adapter -/
structure FormattedMatch where
  fullMatch : List Char
  index : Nat
  length : Nat
  groups : List (Option (List Char))
  namedGroups : List (String × Option (List Char))
  input : List Char
deriving DecidableEq, Repr

/-- standardized result object built by createResult in either adapter -/
structure EngineResult where
  success : Bool
  engine : String
  pattern : List Char
  flags : List Char
  text : List Char
  matches' : List FormattedMatch
  error : Option ErrObj
deriving DecidableEq, Repr

/-- createResult -/
def createResult (engine : String) (success : Bool) (pattern flags text : List Char)
    (matches' : List FormattedMatch) (error : Option ErrObj) : EngineResult :=
  { success := success, engine := engine, pattern := pattern, flags := flags,
    text := text, matches' := matches', error := error }

/-- result object returned by the replace methods -/
structure ReplaceResult where
  success : Bool
  engine : String
  pattern : List Char
  flags : List Char
  text : List Char
  replacement : List Char
  result : List Char
  error : Option ErrObj
deriving DecidableEq, Repr

namespace JSEngine

/-- ENGINE_NAME -/
def ENGINE_NAME : String := "JavaScript"

/-- SUPPORTED_FLAGS -/
def SUPPORTED_FLAGS : List Char := ['i', 'g', 'm', 's', 'u', 'y']

/-- MAX_ITERATIONS, the global cap used in findAll and capability reporting -/
def MAX_ITERATIONS : Nat := 10000

/-- validateAndSanitizeFlags: reject unsupported flag characters, then remove
    duplicates keeping first occurrences. A thrown Error is an .error value. -/
def validateAndSanitizeFlags (flags : List Char) : Except String (List Char) :=
  let invalidFlags := flags.filter (fun c => c ∉ SUPPORTED_FLAGS)
  if invalidFlags.length > 0 then
    .error ("Unsupported flags for JavaScript engine: " ++ String.mk invalidFlags
      ++ ". Supported: " ++ String.mk SUPPORTED_FLAGS)
  else
    .ok (dedupKeepFirst flags)

/-- result of one RegExp#exec call: match[0] (str), match.index (start),
    capture groups and named groups, as delivered by the platform engine -/
structure RawMatch where
  start : Nat
  str : List Char
  groups : List (Option (List Char))
  named : List (String × Option (List Char))
deriving DecidableEq, Repr

/-- the position just after the match, which is what the platform engine
    assigns to regex.lastIndex after a successful global exec -/
def RawMatch.endPos (m : RawMatch) : Nat := m.start + m.str.length

/-- abstract compiled RegExp: exec as a function of subject and lastIndex -/
def JsExec : Type := List Char → Nat → Option RawMatch

/-- facts valid for every real compiled RegExp used through lastIndex:
    a reported match starts at or after the search position, fits in the
    subject, and its text is the subject slice it covers -/
def ExecValid (exec : JsExec) : Prop :=
  ∀ text pos m, exec text pos = some m →
    pos ≤ m.start ∧ m.start + m.str.length ≤ text.length ∧
    m.str = listSlice text m.start m.str.length

/-- abstract RegExp constructor: pattern and flags to a compiled matcher or a
    SyntaxError message -/
def JsCompile : Type := List Char → List Char → Except String JsExec

/-- every matcher produced by the constructor is a valid matcher -/
def CompileValid (compile : JsCompile) : Prop :=
  ∀ p f exec, compile p f = .ok exec → ExecValid exec

/-- formatMatch: RegExpMatchArray to the standardized match shape -/
def formatMatch (text : List Char) (m : RawMatch) : FormattedMatch :=
  { fullMatch := m.str, index := m.start, length := m.str.length,
    groups := m.groups, namedGroups := m.named, input := text }

/-- test: validate flags, compile, run one exec from position 0 -/
def test (compile : JsCompile) (pattern text flags : List Char) : EngineResult :=
  match validateAndSanitizeFlags flags with
  | .error msg =>
      createResult ENGINE_NAME false pattern flags text []
        (some (createError msg "test operation"))
  | .ok sanitizedFlags =>
      match compile pattern sanitizedFlags with
      | .error msg =>
          createResult ENGINE_NAME false pattern sanitizedFlags text []
            (some (createSyntaxError msg "pattern compilation"))
      | .ok exec =>
          match exec text 0 with
          | none => createResult ENGINE_NAME false pattern sanitizedFlags text [] none
          | some m =>
              createResult ENGINE_NAME true pattern sanitizedFlags text
                [formatMatch text m] none

/-- outcome of the findAll while loop: either the loop exited normally or the
    iteration-cap Error was thrown with the matches collected so far -/
inductive LoopOut where
  | finished : List FormattedMatch → LoopOut
  | tooMany : List FormattedMatch → LoopOut
deriving DecidableEq, Repr

/-- the next value of regex.lastIndex after recording a match: the source
    increments lastIndex when match.index === regex.lastIndex, which for a
    fresh exec means the match had zero length -/
def nextPos (m : RawMatch) : Nat :=
  if m.start = m.endPos then m.endPos + 1 else m.endPos

/-- the findAll while loop. remaining counts the iterations left before
    iterationCount would exceed MAX_ITERATIONS; the cap check happens after a
    successful exec and before the match is recorded, exactly as in the source.
    The loop also breaks once lastIndex moves past the end of the subject. -/
def findAllLoop (exec : JsExec) (text : List Char) :
    Nat → Nat → List FormattedMatch → LoopOut
  | remaining, pos, acc =>
    match exec text pos with
    | none => .finished acc
    | some m =>
        match remaining with
        | 0 => .tooMany acc
        | r + 1 =>
            let accNext := acc ++ [formatMatch text m]
            if nextPos m > text.length then .finished accNext
            else findAllLoop exec text r (nextPos m) accNext

/-- the Error message thrown when the iteration cap is exceeded -/
def tooManyMessage : String :=
  "Too many matches found (>" ++ toString MAX_ITERATIONS ++ "). Pattern may be too broad."

/-- findAll: validate flags, force the global flag, compile, run the loop; on
    the cap Error keep the matches already found when there are any -/
def findAll (compile : JsCompile) (pattern text flags : List Char) : EngineResult :=
  match validateAndSanitizeFlags flags with
  | .error msg =>
      createResult ENGINE_NAME false pattern flags text []
        (some (createError msg "findAll operation"))
  | .ok sanitizedFlags =>
      let globalFlags := if 'g' ∈ sanitizedFlags then sanitizedFlags
                         else sanitizedFlags ++ ['g']
      match compile pattern globalFlags with
      | .error msg =>
          createResult ENGINE_NAME false pattern globalFlags text []
            (some (createSyntaxError msg "pattern compilation"))
      | .ok exec =>
          match findAllLoop exec text MAX_ITERATIONS 0 [] with
          | .finished ms =>
              createResult ENGINE_NAME (ms.length > 0) pattern globalFlags text ms none
          | .tooMany ms =>
              if ms.length > 0 then
                createResult ENGINE_NAME true pattern globalFlags text ms
                  (some (createError tooManyMessage "partial execution - some matches found"))
              else
                createResult ENGINE_NAME false pattern globalFlags text []
                  (some (createError tooManyMessage "pattern execution"))

/-- native String#replace with a non-global regex: substitute the first match
    (fresh regex, so the search starts at position 0) -/
def nativeReplaceFirst (exec : JsExec) (text repl : List Char) : List Char :=
  match exec text 0 with
  | none => text
  | some m => text.take m.start ++ repl ++ text.drop m.endPos

/-- the match-collection phase of native String#replace with a global regex
    (ECMAScript RegExp.prototype Symbol.replace): repeatedly exec, and after a
    zero-length match advance lastIndex by one. The fuel argument only bounds
    the recursion; text.length + 2 steps suffice for every valid matcher. -/
def nativeCollect (exec : JsExec) (text : List Char) :
    Nat → Nat → List RawMatch → List RawMatch
  | 0, _, acc => acc
  | f + 1, pos, acc =>
      match exec text pos with
      | none => acc
      | some m =>
          nativeCollect exec text f
            (if m.str = [] then m.endPos + 1 else m.endPos) (acc ++ [m])

/-- the splicing phase of native String#replace with a global regex: each match
    starting at or after the next source position is replaced by repl -/
def nativeSplice (text repl : List Char) : List RawMatch → Nat → List Char
  | [], nextSource => text.drop nextSource
  | m :: rest, nextSource =>
      if m.start < nextSource then nativeSplice text repl rest nextSource
      else listSlice text nextSource (m.start - nextSource) ++ repl ++
        nativeSplice text repl rest m.endPos

/-- native String#replace, for a replacement string free of dollar patterns
    (every replacement a claim mentions is) -/
def nativeReplace (exec : JsExec) (isGlobal : Bool) (text repl : List Char) : List Char :=
  if isGlobal then
    nativeSplice text repl (nativeCollect exec text (text.length + 2) 0 []) 0
  else nativeReplaceFirst exec text repl

/-- replace: validate flags, compile with the sanitized flags exactly as given
    (the global flag is not forced here), delegate to native String#replace -/
def replace (compile : JsCompile) (pattern text replacement flags : List Char) :
    ReplaceResult :=
  match validateAndSanitizeFlags flags with
  | .error msg =>
      { success := false, engine := ENGINE_NAME, pattern := pattern, flags := flags,
        text := text, replacement := replacement, result := text,
        error := some (createError msg "replace operation") }
  | .ok sanitizedFlags =>
      match compile pattern sanitizedFlags with
      | .error msg =>
          { success := false, engine := ENGINE_NAME, pattern := pattern,
            flags := sanitizedFlags, text := text, replacement := replacement,
            result := text,
            error := some (createSyntaxError msg "pattern compilation") }
      | .ok exec =>
          { success := true, engine := ENGINE_NAME, pattern := pattern,
            flags := sanitizedFlags, text := text, replacement := replacement,
            result := nativeReplace exec ('g' ∈ sanitizedFlags) text replacement,
            error := none }

/-- the performance block of getCapabilities -/
structure PerformanceLimits where
  timeoutMs : Nat
  maxIterations : Nat
deriving DecidableEq, Repr

/-- getCapabilities().performance of the JavaScript adapter: the TIMEOUT_MS
    constant of its methods and the module-level MAX_ITERATIONS cap -/
def capabilitiesPerformance : PerformanceLimits :=
  { timeoutMs := 5000, maxIterations := MAX_ITERATIONS }

end JSEngine

namespace PCREEngine

/-- ENGINE_NAME -/
def ENGINE_NAME : String := "PCRE"

/-- SUPPORTED_FLAGS (g was added for consistency) -/
def SUPPORTED_FLAGS : List Char := ['i', 'm', 's', 'x', 'u', 'g']

/-- TIMEOUT_MS -/
def TIMEOUT_MS : Nat := 10000

/-- validateAndSanitizeFlags of the PCRE adapter -/
def validateAndSanitizeFlags (flags : List Char) : Except String (List Char) :=
  let invalidFlags := flags.filter (fun c => c ∉ SUPPORTED_FLAGS)
  if invalidFlags.length > 0 then
    .error ("Unsupported flags for PCRE engine: " ++ String.mk invalidFlags
      ++ ". Supported: " ++ String.mk SUPPORTED_FLAGS)
  else
    .ok (dedupKeepFirst flags)

/-- the option bitmask built by convertFlags, modelled as the record of the
    library bits it sets (g is handled by the calling methods, not here) -/
structure PcreOpts where
  caseless : Bool
  multiline : Bool
  dotall : Bool
  extended : Bool
  utf8 : Bool
deriving DecidableEq, Repr

/-- convertFlags -/
def convertFlags (flags : List Char) : PcreOpts :=
  { caseless := 'i' ∈ flags, multiline := 'm' ∈ flags, dotall := 's' ∈ flags,
    extended := 'x' ∈ flags, utf8 := 'u' ∈ flags }

/-- result delivered by PCRERegex#exec and pcre.quickMatch: success flag,
    start and end offsets, the matched text, captures; the empty list stands
    for an absent match field, matching its JS falsiness -/
structure PcreRaw where
  success : Bool
  start : Nat
  endIdx : Nat
  mstr : List Char
  groups : List (Option (List Char))
  named : List (String × Option (List Char))
deriving DecidableEq, Repr

/-- JS disjunction x || d on numbers: 0 is falsy -/
def jsNumOr (x d : Nat) : Nat := if x = 0 then d else x

/-- JS disjunction s || d on strings: the empty string is falsy -/
def jsStrOr (s d : List Char) : List Char := if s = [] then d else s

/-- formatMatch of the PCRE adapter -/
def formatMatch (m : PcreRaw) (text : List Char) : FormattedMatch :=
  { fullMatch := jsStrOr m.mstr (listSlice text m.start (m.endIdx - m.start)),
    index := jsNumOr m.start 0,
    length := jsNumOr m.endIdx 0 - jsNumOr m.start 0,
    groups := m.groups, namedGroups := m.named, input := text }

/-- abstract compiled PCRERegex: exec as a function of subject and offset -/
def PcreExec : Type := List Char → Nat → Option PcreRaw

/-- facts valid for every real compiled PCRE regex: a successful match starts
    at or after the requested offset, lies inside the subject, and its text is
    the subject slice between its offsets -/
def ExecValid (exec : PcreExec) : Prop :=
  ∀ text pos r, exec text pos = some r → r.success = true →
    pos ≤ r.start ∧ r.start ≤ r.endIdx ∧ r.endIdx ≤ text.length ∧
    r.mstr = listSlice text r.start (r.endIdx - r.start)

/-- abstract PCRERegex constructor -/
def PcreCompile : Type := List Char → PcreOpts → Except String PcreExec

/-- every matcher produced by the constructor is a valid matcher -/
def CompileValid (compile : PcreCompile) : Prop :=
  ∀ p o exec, compile p o = .ok exec → ExecValid exec

/-- MAX_ITERATIONS, the local cap of the findAll loop -/
def MAX_ITERATIONS : Nat := 5000

/-- the offset update of the findAll loop:
      offset = result.end || (result.start + 1);
      if (result.start === result.end) offset++;
    result.end is falsy when it equals 0 -/
def nextOffset (r : PcreRaw) : Nat :=
  let offset := jsNumOr r.endIdx (r.start + 1)
  if r.start = r.endIdx then offset + 1 else offset

/-- the findAll while loop. fuel is the number of iterations the cap still
    allows (iterationCount = MAX_ITERATIONS - fuel); the pair returned carries
    the collected matches and the remaining fuel, from which the post-loop
    iterationCount >= MAX_ITERATIONS test is decided. -/
def findAllLoop (exec : PcreExec) (text : List Char) :
    Nat → Nat → List FormattedMatch → (List FormattedMatch × Nat)
  | fuel, offset, acc =>
    if offset < text.length then
      match fuel with
      | 0 => (acc, 0)
      | f + 1 =>
          match exec text offset with
          | none => (acc, f)
          | some r =>
              if r.success = false then (acc, f)
              else
                let accNext := acc ++ [formatMatch r text]
                if nextOffset r > text.length then (accNext, f)
                else findAllLoop exec text f (nextOffset r) accNext
    else (acc, fuel)

/-- the Error message built when the iteration limit is reached -/
def tooManyMessage : String :=
  "Too many matches found (>" ++ toString MAX_ITERATIONS ++ "). Pattern may be too broad."

/-- findAll of the PCRE adapter -/
def findAll (compile : PcreCompile) (pattern text flags : List Char) : EngineResult :=
  match validateAndSanitizeFlags flags with
  | .error msg =>
      createResult ENGINE_NAME false pattern flags text []
        (some (createError msg "findAll operation"))
  | .ok sanitizedFlags =>
      match compile pattern (convertFlags sanitizedFlags) with
      | .error msg =>
          createResult ENGINE_NAME false pattern sanitizedFlags text []
            (some (createError msg "pattern compilation"))
      | .ok exec =>
          let out := findAllLoop exec text MAX_ITERATIONS 0 []
          if out.snd = 0 ∧ out.fst.length > 0 then
            createResult ENGINE_NAME true pattern sanitizedFlags text out.fst
              (some (createError tooManyMessage "iteration limit reached - some matches found"))
          else
            createResult ENGINE_NAME (out.fst.length > 0) pattern sanitizedFlags text
              out.fst none

/-- abstract pcre.quickMatch primitive used by test -/
def QuickMatch : Type := List Char → List Char → PcreOpts → Option PcreRaw

/-- facts valid for every real quickMatch result -/
def QuickValid (quick : QuickMatch) : Prop :=
  ∀ p text o r, quick p text o = some r → r.success = true →
    r.start ≤ r.endIdx ∧ r.endIdx ≤ text.length ∧
    r.mstr = listSlice text r.start (r.endIdx - r.start)

/-- test of the PCRE adapter -/
def test (quick : QuickMatch) (pattern text flags : List Char) : EngineResult :=
  match validateAndSanitizeFlags flags with
  | .error msg =>
      createResult ENGINE_NAME false pattern flags text []
        (some (createError msg "test operation"))
  | .ok sanitizedFlags =>
      match quick pattern text (convertFlags sanitizedFlags) with
      | none => createResult ENGINE_NAME false pattern sanitizedFlags text [] none
      | some r =>
          if r.success = false then
            createResult ENGINE_NAME false pattern sanitizedFlags text [] none
          else
            createResult ENGINE_NAME true pattern sanitizedFlags text
              [formatMatch r text] none

/-- the local MAX_ITERATIONS of the replace loop -/
def REPLACE_MAX_ITERATIONS : Nat := 1000

/-- the match-collection loop of replace, returning raw matches in scan order;
    fuel plays the same role as in findAllLoop -/
def replaceLoop (exec : PcreExec) (text : List Char) (isGlobal : Bool) :
    Nat → Nat → List PcreRaw → List PcreRaw
  | fuel, offset, acc =>
    if offset < text.length then
      match fuel with
      | 0 => acc
      | f + 1 =>
          match exec text offset with
          | none => acc
          | some m =>
              if m.success = false then acc
              else
                let accNext := acc ++ [m]
                let offset1 := jsNumOr m.endIdx (m.start + 1)
                if isGlobal = false then accNext
                else
                  replaceLoop exec text isGlobal f
                    (if m.start = m.endIdx then offset1 + 1 else offset1) accNext
    else acc

/-- one back-to-front substitution step:
      startPos = match.start || 0; endPos = match.end || startPos;
      result = result.substring(0, startPos) + replacement + result.substring(endPos) -/
def spliceOne (replacement res : List Char) (m : PcreRaw) : List Char :=
  let startPos := jsNumOr m.start 0
  let endPos := jsNumOr m.endIdx startPos
  res.take startPos ++ replacement ++ res.drop endPos

/-- replace matches from the last to the first so earlier indices stay valid -/
def spliceDesc (replacement : List Char) (ms : List PcreRaw) (res : List Char) : List Char :=
  ms.reverse.foldl (spliceOne replacement) res

/-- replace of the PCRE adapter -/
def replace (compile : PcreCompile) (pattern text replacement flags : List Char) :
    ReplaceResult :=
  match validateAndSanitizeFlags flags with
  | .error msg =>
      { success := false, engine := ENGINE_NAME, pattern := pattern, flags := flags,
        text := text, replacement := replacement, result := text,
        error := some (createError msg "replace operation") }
  | .ok sanitizedFlags =>
      match compile pattern (convertFlags sanitizedFlags) with
      | .error msg =>
          { success := false, engine := ENGINE_NAME, pattern := pattern,
            flags := sanitizedFlags, text := text, replacement := replacement,
            result := text, error := some (createError msg "pattern compilation") }
      | .ok exec =>
          let ms := replaceLoop exec text ('g' ∈ sanitizedFlags)
            REPLACE_MAX_ITERATIONS 0 []
          { success := true, engine := ENGINE_NAME, pattern := pattern,
            flags := sanitizedFlags, text := text, replacement := replacement,
            result := spliceDesc replacement ms text, error := none }

/-- getCapabilities().performance of the PCRE adapter -/
def capabilitiesPerformance : JSEngine.PerformanceLimits :=
  { timeoutMs := TIMEOUT_MS, maxIterations := MAX_ITERATIONS }

end PCREEngine

namespace EngineFactory

/-- a JS runtime value passed to the facade: the facade validates types itself -/
inductive JSVal where
  | str : List Char → JSVal
  | jsNull
  | jsUndefined
  | num : Int → JSVal
deriving DecidableEq, Repr

/-- an ASCII apostrophe, kept as a named character for message building -/
def quoteChar : Char := Char.ofNat 39

/-- the apostrophe as a one-character string -/
def quote : String := String.singleton quoteChar

/-- Array.prototype.join with a comma separator -/
def joinComma (l : List String) : String := String.intercalate ", " l

/-- normalizeEngineName: non-empty check, lowercase and trim, then the static
    ENGINE_ALIASES table (javascript: javascript, js; pcre: pcre, perl).
    The unknown-name Error lists Object.keys(ENGINE_ALIASES). -/
def normalizeEngineName (name : String) : Except String String :=
  if name = "" then .error "Engine name must be a non-empty string"
  else
    let normalizedName := String.mk (jsTrim (jsToLowerCase name.data))
    if normalizedName = "javascript" ∨ normalizedName = "js" then .ok "javascript"
    else if normalizedName = "pcre" ∨ normalizedName = "perl" then .ok "pcre"
    else .error ("Unknown engine: " ++ name ++ ". Available engines: javascript, pcre")

/-- validatePattern: null and undefined rejected first, then non-strings; the
    string payload is returned for use by the engines -/
def validatePattern : JSVal → Except String (List Char)
  | .jsNull => .error "Pattern cannot be null or undefined"
  | .jsUndefined => .error "Pattern cannot be null or undefined"
  | .str s => .ok s
  | .num _ => .error "Pattern must be a string"

/-- validateText -/
def validateText : JSVal → Except String (List Char)
  | .jsNull => .error "Text cannot be null or undefined"
  | .jsUndefined => .error "Text cannot be null or undefined"
  | .str s => .ok s
  | .num _ => .error "Text must be a string"

/-- validateFlags: null and undefined become the empty flags string -/
def validateFlags : JSVal → Except String (List Char)
  | .jsNull => .ok []
  | .jsUndefined => .ok []
  | .str s => .ok s
  | .num _ => .error "Flags must be a string"

/-- the replacement checks inlined in the facade replace method -/
def validateReplacement : JSVal → Except String (List Char)
  | .jsNull => .error "Replacement cannot be null or undefined"
  | .jsUndefined => .error "Replacement cannot be null or undefined"
  | .str s => .ok s
  | .num _ => .error "Replacement must be a string"

/-- the options object of the factory constructor -/
structure FactoryOptions where
  quiet : Bool
  json : Bool
  debug : Bool
deriving DecidableEq, Repr

/-- the factory state the matching methods read: the keys of the engines map
    and the initialized flag (initializationErrors only feeds logging and
    getEngineInfo, which no modelled method reads) -/
structure FactoryState where
  engineKeys : List String
  initDone : Bool
  options : FactoryOptions
deriving DecidableEq, Repr

/-- the state after a successful initialize(): the JavaScript engine is
    registered under every alias of ENGINE_ALIASES.javascript, in table order;
    the PCRE engine is skipped (disabled in this build of the source) -/
def initializedFactory (options : FactoryOptions) : FactoryState :=
  { engineKeys := ["javascript", "js"], initDone := true, options := options }

/-- getAvailableEngines: canonical names of the registered keys, first
    occurrences kept, empty before initialization. For every key the factory
    ever registers, normalizeEngineName succeeds; the fallback branch keeping
    the raw key is unreachable in those states. -/
def getAvailableEngines (st : FactoryState) : List String :=
  if st.initDone = false then []
  else
    dedupKeepFirst (st.engineKeys.map (fun k =>
      match normalizeEngineName k with
      | .ok canonical => canonical
      | .error _ => k))

/-- the engine instances this build can hand out: only the JavaScript engine
    is ever registered, so one reference suffices -/
inductive EngineRef where
  | jsEngine
deriving DecidableEq, Repr

/-- getEngine: initialization guard, alias resolution, then the engines-map
    lookup; the not-available Error lists getAvailableEngines() -/
def getEngine (st : FactoryState) (name : String) : Except String EngineRef :=
  if st.initDone = false then
    .error "EngineFactory not initialized. Call initialize() first."
  else
    match normalizeEngineName name with
    | .error msg => .error msg
    | .ok canonical =>
        if canonical ∈ st.engineKeys then .ok .jsEngine
        else
          .error ("Engine " ++ quote ++ name ++ quote
            ++ " not available. Available engines: "
            ++ joinComma (getAvailableEngines st))

/-- facade test: validations may throw (the .error case), then the engine is
    resolved (may throw), then the adapter runs. The try/catch around the
    adapter call never converts anything in this model because the adapter
    methods catch every error internally and are total functions here. -/
def test (compile : JSEngine.JsCompile) (st : FactoryState) (engineName : String)
    (pattern text flags : JSVal) : Except String EngineResult := do
  let p ← validatePattern pattern
  let t ← validateText text
  let validatedFlags ← validateFlags flags
  let _engine ← getEngine st engineName
  .ok (JSEngine.test compile p t validatedFlags)

/-- facade findAll, same shape as test -/
def findAll (compile : JSEngine.JsCompile) (st : FactoryState) (engineName : String)
    (pattern text flags : JSVal) : Except String EngineResult := do
  let p ← validatePattern pattern
  let t ← validateText text
  let validatedFlags ← validateFlags flags
  let _engine ← getEngine st engineName
  .ok (JSEngine.findAll compile p t validatedFlags)

/-- facade replace, with the extra replacement validation of the source -/
def replace (compile : JSEngine.JsCompile) (st : FactoryState) (engineName : String)
    (pattern text replacement flags : JSVal) : Except String ReplaceResult := do
  let p ← validatePattern pattern
  let t ← validateText text
  let validatedFlags ← validateFlags flags
  let r ← validateReplacement replacement
  let _engine ← getEngine st engineName
  .ok (JSEngine.replace compile p t r validatedFlags)

end EngineFactory

/-
  Concrete matcher instances used to evaluate the embedded operations on
  explicit inputs. They stand for the compiled form of specific patterns:
  litFind for a pattern that is a literal character sequence, and the
  empty-everywhere matchers for a pattern that matches the empty string at
  every position (such as a star of a character absent from the text).
-/

/-- compiled literal pattern: the first occurrence of pat at or after the
    search position -/
def litFind (pat : List Char) : JSEngine.JsExec := fun text pos =>
  ((List.range (text.length + 1)).find? (fun i =>
      decide (pos ≤ i) && decide (listSlice text i pat.length = pat)
        && decide (i + pat.length ≤ text.length))).map
    (fun i => { start := i, str := pat, groups := [], named := [] })

/-- a RegExp constructor whose every pattern behaves as a literal -/
def litCompile : JSEngine.JsCompile := fun p _ => .ok (litFind p)

/-- compiled pattern matching the empty string at every position -/
def emptyEverywhere : JSEngine.JsExec := fun text pos =>
  if pos ≤ text.length then some { start := pos, str := [], groups := [], named := [] }
  else none

/-- a RegExp constructor producing the empty-everywhere matcher -/
def emptyCompile : JSEngine.JsCompile := fun _ _ => .ok emptyEverywhere

/-- PCRE matcher matching the empty string at every position -/
def pcreEmptyEverywhere : PCREEngine.PcreExec := fun text pos =>
  if pos ≤ text.length then
    some { success := true, start := pos, endIdx := pos, mstr := [],
           groups := [], named := [] }
  else none

/-- a PCRERegex constructor producing the empty-everywhere matcher -/
def pcreEmptyCompile : PCREEngine.PcreCompile := fun _ _ => .ok pcreEmptyEverywhere

/-- a quickMatch primitive finding a literal pattern -/
def litQuick (pat : List Char) : PCREEngine.QuickMatch := fun _p text _ =>
  (litFind pat text 0).map (fun m =>
    { success := true, start := m.start, endIdx := m.start + m.str.length,
      mstr := m.str, groups := [], named := [] })

/-- a subject of MAX_ITERATIONS characters, long enough that the
    empty-everywhere matcher makes the findAll loop exceed its cap -/
def longText : List Char := List.replicate JSEngine.MAX_ITERATIONS 'a'

/-- the formatted zero-length matches at positions p, p+1, ..., p+r-1 of a
    subject, the shape the findAll loop collects from emptyEverywhere -/
def emptyMatchesFrom (text : List Char) : Nat → Nat → List FormattedMatch
  | _, 0 => []
  | p, r + 1 =>
      JSEngine.formatMatch text { start := p, str := [], groups := [], named := [] }
        :: emptyMatchesFrom text (p + 1) r

/-- the match list carried by a loop outcome -/
def JSEngine.LoopOut.list : JSEngine.LoopOut → List FormattedMatch
  | .finished ms => ms
  | .tooMany ms => ms

/-- the round-trip span property of a formatted match against its subject -/
def SpanOk (text : List Char) (fm : FormattedMatch) : Prop :=
  fm.fullMatch = listSlice text fm.index fm.length ∧ fm.index + fm.length ≤ text.length

instance (text : List Char) (fm : FormattedMatch) : Decidable (SpanOk text fm) :=
  inferInstanceAs (Decidable (_ ∧ _))

/-
  Lemmas. First the deduplication helper, then flag sanitization, then the
  findAll loops, then the claims.
-/

section DedupLemmas

variable {α : Type} [DecidableEq α]

theorem mem_dedupSeen (a : α) : ∀ (l seen : List α),
    a ∈ dedupSeen seen l ↔ a ∈ l ∧ a ∉ seen := by
  intro l
  induction l with
  | nil => intro seen; simp [dedupSeen]
  | cons c rest ih =>
      intro seen
      by_cases hc : c ∈ seen
      · simp only [dedupSeen, if_pos hc, ih seen, List.mem_cons]
        constructor
        · rintro ⟨h1, h2⟩; exact ⟨Or.inr h1, h2⟩
        · rintro ⟨h1 | h1, h2⟩
          · exact absurd (h1 ▸ hc) h2
          · exact ⟨h1, h2⟩
      · simp only [dedupSeen, if_neg hc, List.mem_cons, ih (c :: seen)]
        constructor
        · rintro (rfl | ⟨h1, h2⟩)
          · exact ⟨Or.inl rfl, hc⟩
          · refine ⟨Or.inr h1, fun hs => h2 ?_⟩
            exact Or.inr hs
        · rintro ⟨h1 | h1, h2⟩
          · exact Or.inl h1
          · by_cases hac : a = c
            · exact Or.inl hac
            · exact Or.inr ⟨h1, by simp [List.mem_cons, hac, h2]⟩

theorem nodup_dedupSeen : ∀ (l seen : List α), (dedupSeen seen l).Nodup := by
  intro l
  induction l with
  | nil => intro seen; simp [dedupSeen]
  | cons c rest ih =>
      intro seen
      by_cases hc : c ∈ seen
      · simpa [dedupSeen, hc] using ih seen
      · simp only [dedupSeen, if_neg hc, List.nodup_cons]
        refine ⟨fun hmem => ?_, ih (c :: seen)⟩
        exact ((mem_dedupSeen c rest (c :: seen)).mp hmem).2 (List.mem_cons_self c seen)

theorem dedupSeen_idem : ∀ (l seen : List α),
    dedupSeen seen (dedupSeen seen l) = dedupSeen seen l := by
  intro l
  induction l with
  | nil => intro seen; simp [dedupSeen]
  | cons c rest ih =>
      intro seen
      by_cases hc : c ∈ seen
      · have h1 : dedupSeen seen (c :: rest) = dedupSeen seen rest := by
          simp only [dedupSeen, if_pos hc]
        rw [h1, ih seen]
      · have h1 : dedupSeen seen (c :: rest) = c :: dedupSeen (c :: seen) rest := by
          simp only [dedupSeen, if_neg hc]
        have h2 : dedupSeen seen (c :: dedupSeen (c :: seen) rest)
            = c :: dedupSeen (c :: seen) (dedupSeen (c :: seen) rest) := by
          simp only [dedupSeen, if_neg hc]
        rw [h1, h2, ih (c :: seen)]

theorem dedupSeen_append_single (c : α) : ∀ (l seen : List α),
    dedupSeen seen (l ++ [c]) =
      if c ∈ seen ∨ c ∈ dedupSeen seen l then dedupSeen seen l
      else dedupSeen seen l ++ [c] := by
  intro l
  induction l with
  | nil =>
      intro seen
      by_cases hc : c ∈ seen <;> simp [dedupSeen, hc]
  | cons d rest ih =>
      intro seen
      by_cases hd : d ∈ seen
      · have h1 : dedupSeen seen (d :: rest) = dedupSeen seen rest := by
          simp only [dedupSeen, if_pos hd]
        have h2 : dedupSeen seen ((d :: rest) ++ [c]) = dedupSeen seen (rest ++ [c]) := by
          simp only [List.cons_append, dedupSeen, if_pos hd, List.append_eq]
        rw [h1, h2, ih seen]
      · have h1 : dedupSeen seen (d :: rest) = d :: dedupSeen (d :: seen) rest := by
          simp only [dedupSeen, if_neg hd]
        have h2 : dedupSeen seen ((d :: rest) ++ [c])
            = d :: dedupSeen (d :: seen) (rest ++ [c]) := by
          simp only [List.cons_append, dedupSeen, if_neg hd, List.append_eq]
        rw [h1, h2, ih (d :: seen)]
        by_cases hc : c ∈ d :: seen ∨ c ∈ dedupSeen (d :: seen) rest
        · rw [if_pos hc]
          have hc2 : c ∈ seen ∨ c ∈ d :: dedupSeen (d :: seen) rest := by
            rcases hc with hc | hc
            · rcases List.mem_cons.mp hc with rfl | hcs
              · exact Or.inr (List.mem_cons_self _ _)
              · exact Or.inl hcs
            · exact Or.inr (List.mem_cons_of_mem _ hc)
          rw [if_pos hc2]
        · rw [if_neg hc]
          push_neg at hc
          have hc2 : ¬(c ∈ seen ∨ c ∈ d :: dedupSeen (d :: seen) rest) := by
            rintro (hs | hm)
            · exact hc.1 (List.mem_cons_of_mem _ hs)
            · rcases List.mem_cons.mp hm with rfl | hm2
              · exact hc.1 (List.mem_cons_self _ _)
              · exact hc.2 hm2
          rw [if_neg hc2]
          simp

theorem mem_dedupKeepFirst (a : α) (l : List α) : a ∈ dedupKeepFirst l ↔ a ∈ l := by
  simp [dedupKeepFirst, mem_dedupSeen]

theorem nodup_dedupKeepFirst (l : List α) : (dedupKeepFirst l).Nodup :=
  nodup_dedupSeen l []

theorem dedupKeepFirst_idem (l : List α) :
    dedupKeepFirst (dedupKeepFirst l) = dedupKeepFirst l :=
  dedupSeen_idem l []

theorem dedupKeepFirst_append_single (c : α) (l : List α) :
    dedupKeepFirst (l ++ [c]) =
      if c ∈ dedupKeepFirst l then dedupKeepFirst l else dedupKeepFirst l ++ [c] := by
  have h := dedupSeen_append_single c l []
  simpa [dedupKeepFirst] using h

end DedupLemmas

section FlagLemmas

theorem jsSanitize_ok (f : List Char) (h : ∀ c ∈ f, c ∈ JSEngine.SUPPORTED_FLAGS) :
    JSEngine.validateAndSanitizeFlags f = .ok (dedupKeepFirst f) := by
  unfold JSEngine.validateAndSanitizeFlags
  have hf : f.filter (fun c => c ∉ JSEngine.SUPPORTED_FLAGS) = [] := by
    rw [List.filter_eq_nil_iff]
    simpa using h
  simp [hf]
  exact h

theorem pcreSanitize_ok (f : List Char) (h : ∀ c ∈ f, c ∈ PCREEngine.SUPPORTED_FLAGS) :
    PCREEngine.validateAndSanitizeFlags f = .ok (dedupKeepFirst f) := by
  unfold PCREEngine.validateAndSanitizeFlags
  have hf : f.filter (fun c => c ∉ PCREEngine.SUPPORTED_FLAGS) = [] := by
    rw [List.filter_eq_nil_iff]
    simpa using h
  simp [hf]
  exact h

theorem globalFlags_append_g (f : List Char) :
    (if 'g' ∈ dedupKeepFirst (f ++ ['g']) then dedupKeepFirst (f ++ ['g'])
     else dedupKeepFirst (f ++ ['g']) ++ ['g'])
    = (if 'g' ∈ dedupKeepFirst f then dedupKeepFirst f else dedupKeepFirst f ++ ['g']) := by
  rw [dedupKeepFirst_append_single]
  by_cases hg : 'g' ∈ dedupKeepFirst f
  · simp [hg]
  · simp [hg]

end FlagLemmas

section LoopLemmas

theorem length_le_of_pairwise_lt_le (l : List Nat) (n : Nat)
    (hp : l.Pairwise (· < ·)) (hb : ∀ x ∈ l, x ≤ n) : l.length ≤ n + 1 := by
  have hnodup : l.Nodup := hp.imp (fun h => Nat.ne_of_lt h)
  have hsub : l.toFinset ⊆ Finset.range (n + 1) := by
    intro x hx
    rw [List.mem_toFinset] at hx
    exact Finset.mem_range.mpr (Nat.lt_succ_of_le (hb x hx))
  calc l.length = l.toFinset.card := (List.toFinset_card_of_nodup hnodup).symm
    _ ≤ (Finset.range (n + 1)).card := Finset.card_le_card hsub
    _ = n + 1 := Finset.card_range _

theorem jsLoop_none (exec : JSEngine.JsExec) (text : List Char) (remaining pos : Nat)
    (acc : List FormattedMatch) (h : exec text pos = none) :
    JSEngine.findAllLoop exec text remaining pos acc = .finished acc := by
  unfold JSEngine.findAllLoop
  rw [h]

theorem jsLoop_zero (exec : JSEngine.JsExec) (text : List Char) (pos : Nat)
    (acc : List FormattedMatch) (m : JSEngine.RawMatch) (h : exec text pos = some m) :
    JSEngine.findAllLoop exec text 0 pos acc = .tooMany acc := by
  unfold JSEngine.findAllLoop
  rw [h]

theorem jsLoop_succ (exec : JSEngine.JsExec) (text : List Char) (r pos : Nat)
    (acc : List FormattedMatch) (m : JSEngine.RawMatch) (h : exec text pos = some m) :
    JSEngine.findAllLoop exec text (r + 1) pos acc =
      if JSEngine.nextPos m > text.length
      then .finished (acc ++ [JSEngine.formatMatch text m])
      else JSEngine.findAllLoop exec text r (JSEngine.nextPos m)
        (acc ++ [JSEngine.formatMatch text m]) := by
  conv_lhs => unfold JSEngine.findAllLoop
  rw [h]

theorem jsLoop_invariant (exec : JSEngine.JsExec) (text : List Char)
    (hv : JSEngine.ExecValid exec) :
    ∀ (fuel pos : Nat) (acc : List FormattedMatch),
      (∀ fm ∈ acc, SpanOk text fm) →
      ((acc.map FormattedMatch.index).Pairwise (· < ·)) →
      (∀ fm ∈ acc, fm.index < pos) →
      (∀ fm ∈ (JSEngine.findAllLoop exec text fuel pos acc).list, SpanOk text fm) ∧
        (((JSEngine.findAllLoop exec text fuel pos acc).list.map
            FormattedMatch.index).Pairwise (· < ·)) := by
  intro fuel
  induction fuel with
  | zero =>
      intro pos acc hspan hpair _
      cases hexec : exec text pos with
      | none =>
          rw [jsLoop_none exec text 0 pos acc hexec]
          exact ⟨hspan, hpair⟩
      | some m =>
          rw [jsLoop_zero exec text pos acc m hexec]
          exact ⟨hspan, hpair⟩
  | succ r ih =>
      intro pos acc hspan hpair hlt
      cases hexec : exec text pos with
      | none =>
          rw [jsLoop_none exec text (r + 1) pos acc hexec]
          exact ⟨hspan, hpair⟩
      | some m =>
          obtain ⟨hpos, hend, hstr⟩ := hv text pos m hexec
          have hspan2 : ∀ fm ∈ acc ++ [JSEngine.formatMatch text m], SpanOk text fm := by
            intro fm hfm
            rcases List.mem_append.mp hfm with hfm | hfm
            · exact hspan fm hfm
            · rcases List.mem_singleton.mp hfm with rfl
              exact ⟨hstr, hend⟩
          have hstart_lt : m.start < JSEngine.nextPos m := by
            unfold JSEngine.nextPos JSEngine.RawMatch.endPos
            by_cases hz : m.start = m.start + m.str.length
            · rw [if_pos hz]; omega
            · rw [if_neg hz]; omega
          have hpair2 : ((acc ++ [JSEngine.formatMatch text m]).map
              FormattedMatch.index).Pairwise (· < ·) := by
            rw [List.map_append, List.pairwise_append]
            refine ⟨hpair, by simp, ?_⟩
            intro a ha b hb
            rcases List.mem_map.mp ha with ⟨fm, hfm, rfl⟩
            simp only [List.map_cons, List.map_nil, List.mem_singleton] at hb
            subst hb
            calc fm.index < pos := hlt fm hfm
              _ ≤ m.start := hpos
          have hlt2 : ∀ fm ∈ acc ++ [JSEngine.formatMatch text m],
              fm.index < JSEngine.nextPos m := by
            intro fm hfm
            rcases List.mem_append.mp hfm with hfm | hfm
            · calc fm.index < pos := hlt fm hfm
                _ ≤ m.start := hpos
                _ < JSEngine.nextPos m := hstart_lt
            · rcases List.mem_singleton.mp hfm with rfl
              exact hstart_lt
          rw [jsLoop_succ exec text r pos acc m hexec]
          by_cases hbreak : JSEngine.nextPos m > text.length
          · rw [if_pos hbreak]
            exact ⟨fun fm hfm => hspan2 fm hfm, hpair2⟩
          · rw [if_neg hbreak]
            exact ih (JSEngine.nextPos m) (acc ++ [JSEngine.formatMatch text m])
              hspan2 hpair2 hlt2

end LoopLemmas

section JsFindAllLemmas

theorem jsFindAll_matches_cases (compile : JSEngine.JsCompile)
    (hc : JSEngine.CompileValid compile) (p t f : List Char) :
    (JSEngine.findAll compile p t f).matches' = [] ∨
      ∃ exec, JSEngine.ExecValid exec ∧
        (JSEngine.findAll compile p t f).matches'
          = (JSEngine.findAllLoop exec t JSEngine.MAX_ITERATIONS 0 []).list := by
  unfold JSEngine.findAll
  cases hs : JSEngine.validateAndSanitizeFlags f with
  | error msg => left; rfl
  | ok s =>
      cases hcpl : compile p (if 'g' ∈ s then s else s ++ ['g']) with
      | error msg => simp only [hcpl]; left; rfl
      | ok exec =>
          have hvalid := hc _ _ _ hcpl
          simp only [hcpl]
          cases hloop : JSEngine.findAllLoop exec t JSEngine.MAX_ITERATIONS 0 [] with
          | finished ms =>
              right
              exact ⟨exec, hvalid, by simp [hloop, JSEngine.LoopOut.list, createResult]⟩
          | tooMany ms =>
              by_cases hms : ms.length > 0
              · right
                refine ⟨exec, hvalid, ?_⟩
                simp [hloop, hms, JSEngine.LoopOut.list, createResult]
              · left
                simp [hloop, hms, createResult]

theorem jsLoop_tooMany_length (exec : JSEngine.JsExec) (text : List Char) :
    ∀ (fuel pos : Nat) (acc ms : List FormattedMatch),
      JSEngine.findAllLoop exec text fuel pos acc = .tooMany ms →
      ms.length = acc.length + fuel := by
  intro fuel
  induction fuel with
  | zero =>
      intro pos acc ms h
      cases hexec : exec text pos with
      | none =>
          rw [jsLoop_none exec text 0 pos acc hexec] at h
          exact JSEngine.LoopOut.noConfusion h
      | some m =>
          rw [jsLoop_zero exec text pos acc m hexec] at h
          injection h with h2
          rw [← h2]
          simp
  | succ r ih =>
      intro pos acc ms h
      cases hexec : exec text pos with
      | none =>
          rw [jsLoop_none exec text (r + 1) pos acc hexec] at h
          exact JSEngine.LoopOut.noConfusion h
      | some m =>
          rw [jsLoop_succ exec text r pos acc m hexec] at h
          by_cases hbreak : JSEngine.nextPos m > text.length
          · rw [if_pos hbreak] at h
            exact JSEngine.LoopOut.noConfusion h
          · rw [if_neg hbreak] at h
            have hlen := ih (JSEngine.nextPos m)
              (acc ++ [JSEngine.formatMatch text m]) ms h
            simp only [List.length_append, List.length_singleton] at hlen
            omega

theorem jsLoop_empty_run (text : List Char) :
    ∀ (r p : Nat) (acc : List FormattedMatch), p ≤ text.length → p + r ≤ text.length →
      JSEngine.findAllLoop emptyEverywhere text r p acc
        = .tooMany (acc ++ emptyMatchesFrom text p r) := by
  intro r
  induction r with
  | zero =>
      intro p acc hp _
      have hexec : emptyEverywhere text p = some ⟨p, [], [], []⟩ := by
        simp [emptyEverywhere, hp]
      rw [jsLoop_zero emptyEverywhere text p acc _ hexec]
      simp [emptyMatchesFrom]
  | succ r ih =>
      intro p acc hp hpr
      have hexec : emptyEverywhere text p = some ⟨p, [], [], []⟩ := by
        simp [emptyEverywhere, hp]
      rw [jsLoop_succ emptyEverywhere text r p acc _ hexec]
      have hnext : JSEngine.nextPos ⟨p, [], [], []⟩ = p + 1 := by
        simp [JSEngine.nextPos, JSEngine.RawMatch.endPos]
      rw [hnext]
      rw [if_neg (by omega : ¬ p + 1 > text.length)]
      rw [ih (p + 1) (acc ++ [JSEngine.formatMatch text ⟨p, [], [], []⟩])
        (by omega) (by omega)]
      have hunfold : emptyMatchesFrom text p (r + 1)
          = JSEngine.formatMatch text ⟨p, [], [], []⟩ :: emptyMatchesFrom text (p + 1) r := by
        simp [emptyMatchesFrom]
      rw [hunfold]
      simp

theorem emptyMatchesFrom_length (text : List Char) :
    ∀ (r p : Nat), (emptyMatchesFrom text p r).length = r := by
  intro r
  induction r with
  | zero => intro p; simp [emptyMatchesFrom]
  | succ r ih => intro p; simp [emptyMatchesFrom, ih]

end JsFindAllLemmas

section MatcherValidity

theorem emptyEverywhere_valid : JSEngine.ExecValid emptyEverywhere := by
  intro text pos m h
  unfold emptyEverywhere at h
  by_cases hp : pos ≤ text.length
  · rw [if_pos hp] at h
    injection h with h2
    subst h2
    refine ⟨Nat.le_refl _, by simpa using hp, by simp [listSlice]⟩
  · rw [if_neg hp] at h
    exact Option.noConfusion h

theorem emptyCompile_valid : JSEngine.CompileValid emptyCompile := by
  intro p f exec h
  injection h with h2
  rw [← h2]
  exact emptyEverywhere_valid

theorem litFind_valid (pat : List Char) : JSEngine.ExecValid (litFind pat) := by
  intro text pos m h
  unfold litFind at h
  cases hf : (List.range (text.length + 1)).find? (fun i =>
      decide (pos ≤ i) && decide (listSlice text i pat.length = pat)
        && decide (i + pat.length ≤ text.length)) with
  | none => rw [hf] at h; exact Option.noConfusion h
  | some i =>
      rw [hf] at h
      simp only [Option.map] at h
      injection h with h2
      have hp := List.find?_some hf
      simp only [Bool.and_eq_true, decide_eq_true_eq] at hp
      obtain ⟨⟨h1, h2s⟩, h3⟩ := hp
      rw [← h2]
      exact ⟨h1, h3, h2s.symm⟩

theorem litCompile_valid : JSEngine.CompileValid litCompile := by
  intro p f exec h
  injection h with h2
  rw [← h2]
  exact litFind_valid p

end MatcherValidity

section PcreLoopLemmas

theorem jsNumOr_zero (x : Nat) : PCREEngine.jsNumOr x 0 = x := by
  unfold PCREEngine.jsNumOr
  by_cases h : x = 0
  · rw [if_pos h, h]
  · rw [if_neg h]

theorem pcreLoop_exit (exec : PCREEngine.PcreExec) (text : List Char)
    (fuel offset : Nat) (acc : List FormattedMatch) (h : ¬ offset < text.length) :
    PCREEngine.findAllLoop exec text fuel offset acc = (acc, fuel) := by
  unfold PCREEngine.findAllLoop
  rw [if_neg h]

theorem pcreLoop_zero (exec : PCREEngine.PcreExec) (text : List Char)
    (offset : Nat) (acc : List FormattedMatch) (h : offset < text.length) :
    PCREEngine.findAllLoop exec text 0 offset acc = (acc, 0) := by
  unfold PCREEngine.findAllLoop
  rw [if_pos h]

theorem pcreLoop_none (exec : PCREEngine.PcreExec) (text : List Char)
    (f offset : Nat) (acc : List FormattedMatch) (h : offset < text.length)
    (he : exec text offset = none) :
    PCREEngine.findAllLoop exec text (f + 1) offset acc = (acc, f) := by
  unfold PCREEngine.findAllLoop
  rw [if_pos h, he]

theorem pcreLoop_fail (exec : PCREEngine.PcreExec) (text : List Char)
    (f offset : Nat) (acc : List FormattedMatch) (r : PCREEngine.PcreRaw)
    (h : offset < text.length) (he : exec text offset = some r)
    (hsucc : r.success = false) :
    PCREEngine.findAllLoop exec text (f + 1) offset acc = (acc, f) := by
  unfold PCREEngine.findAllLoop
  rw [if_pos h, he]
  simp [hsucc]

theorem pcreLoop_step (exec : PCREEngine.PcreExec) (text : List Char)
    (f offset : Nat) (acc : List FormattedMatch) (r : PCREEngine.PcreRaw)
    (h : offset < text.length) (he : exec text offset = some r)
    (hsucc : r.success = true) :
    PCREEngine.findAllLoop exec text (f + 1) offset acc =
      if PCREEngine.nextOffset r > text.length
      then (acc ++ [PCREEngine.formatMatch r text], f)
      else PCREEngine.findAllLoop exec text f (PCREEngine.nextOffset r)
        (acc ++ [PCREEngine.formatMatch r text]) := by
  conv_lhs => unfold PCREEngine.findAllLoop
  rw [if_pos h, he]
  simp [hsucc]

theorem pcre_start_lt_nextOffset (r : PCREEngine.PcreRaw) (hse : r.start ≤ r.endIdx) :
    r.start < PCREEngine.nextOffset r := by
  have h : PCREEngine.nextOffset r =
      if r.start = r.endIdx then (if r.endIdx = 0 then r.start + 1 else r.endIdx) + 1
      else (if r.endIdx = 0 then r.start + 1 else r.endIdx) := by
    unfold PCREEngine.nextOffset PCREEngine.jsNumOr
    rfl
  rw [h]
  split_ifs <;> omega

theorem pcre_formatMatch_span (text : List Char) (r : PCREEngine.PcreRaw)
    (hse : r.start ≤ r.endIdx) (hlen : r.endIdx ≤ text.length)
    (hstr : r.mstr = listSlice text r.start (r.endIdx - r.start)) :
    SpanOk text (PCREEngine.formatMatch r text) ∧
      (PCREEngine.formatMatch r text).index = r.start := by
  unfold PCREEngine.formatMatch SpanOk PCREEngine.jsStrOr
  simp only [jsNumOr_zero]
  refine ⟨⟨?_, by omega⟩, trivial⟩
  by_cases hm : r.mstr = []
  · rw [if_pos hm]
  · rw [if_neg hm, hstr]

theorem pcreLoop_invariant (exec : PCREEngine.PcreExec) (text : List Char)
    (hv : PCREEngine.ExecValid exec) :
    ∀ (fuel offset : Nat) (acc : List FormattedMatch),
      (∀ fm ∈ acc, SpanOk text fm) →
      ((acc.map FormattedMatch.index).Pairwise (· < ·)) →
      (∀ fm ∈ acc, fm.index < offset) →
      (∀ fm ∈ (PCREEngine.findAllLoop exec text fuel offset acc).fst, SpanOk text fm) ∧
        (((PCREEngine.findAllLoop exec text fuel offset acc).fst.map
            FormattedMatch.index).Pairwise (· < ·)) := by
  intro fuel
  induction fuel with
  | zero =>
      intro offset acc hspan hpair _
      by_cases h : offset < text.length
      · rw [pcreLoop_zero exec text offset acc h]; exact ⟨hspan, hpair⟩
      · rw [pcreLoop_exit exec text 0 offset acc h]; exact ⟨hspan, hpair⟩
  | succ f ih =>
      intro offset acc hspan hpair hlt
      by_cases h : offset < text.length
      · cases hexec : exec text offset with
        | none =>
            rw [pcreLoop_none exec text f offset acc h hexec]
            exact ⟨hspan, hpair⟩
        | some r =>
            cases hsucc : r.success with
            | false =>
                rw [pcreLoop_fail exec text f offset acc r h hexec hsucc]
                exact ⟨hspan, hpair⟩
            | true =>
                obtain ⟨hpos, hse, hlen, hstr⟩ := hv text offset r hexec hsucc
                obtain ⟨hspanfm, hidx⟩ := pcre_formatMatch_span text r hse hlen hstr
                have hstart_lt := pcre_start_lt_nextOffset r hse
                have hspan2 : ∀ fm ∈ acc ++ [PCREEngine.formatMatch r text],
                    SpanOk text fm := by
                  intro fm hfm
                  rcases List.mem_append.mp hfm with hfm | hfm
                  · exact hspan fm hfm
                  · rcases List.mem_singleton.mp hfm with rfl
                    exact hspanfm
                have hpair2 : ((acc ++ [PCREEngine.formatMatch r text]).map
                    FormattedMatch.index).Pairwise (· < ·) := by
                  rw [List.map_append, List.pairwise_append]
                  refine ⟨hpair, by simp, ?_⟩
                  intro a ha b hb
                  rcases List.mem_map.mp ha with ⟨fm, hfm, rfl⟩
                  simp only [List.map_cons, List.map_nil, List.mem_singleton] at hb
                  subst hb
                  rw [hidx]
                  calc fm.index < offset := hlt fm hfm
                    _ ≤ r.start := hpos
                have hlt2 : ∀ fm ∈ acc ++ [PCREEngine.formatMatch r text],
                    fm.index < PCREEngine.nextOffset r := by
                  intro fm hfm
                  rcases List.mem_append.mp hfm with hfm | hfm
                  · calc fm.index < offset := hlt fm hfm
                      _ ≤ r.start := hpos
                      _ < PCREEngine.nextOffset r := hstart_lt
                  · rcases List.mem_singleton.mp hfm with rfl
                    rw [hidx]
                    exact hstart_lt
                rw [pcreLoop_step exec text f offset acc r h hexec hsucc]
                by_cases hbreak : PCREEngine.nextOffset r > text.length
                · rw [if_pos hbreak]
                  exact ⟨hspan2, hpair2⟩
                · rw [if_neg hbreak]
                  exact ih (PCREEngine.nextOffset r)
                    (acc ++ [PCREEngine.formatMatch r text]) hspan2 hpair2 hlt2
      · rw [pcreLoop_exit exec text (f + 1) offset acc h]
        exact ⟨hspan, hpair⟩

theorem pcreFindAll_matches_cases (compile : PCREEngine.PcreCompile)
    (hc : PCREEngine.CompileValid compile) (p t f : List Char) :
    (PCREEngine.findAll compile p t f).matches' = [] ∨
      ∃ exec, PCREEngine.ExecValid exec ∧
        (PCREEngine.findAll compile p t f).matches'
          = (PCREEngine.findAllLoop exec t PCREEngine.MAX_ITERATIONS 0 []).fst := by
  unfold PCREEngine.findAll
  cases hs : PCREEngine.validateAndSanitizeFlags f with
  | error msg => left; rfl
  | ok s =>
      cases hcpl : compile p (PCREEngine.convertFlags s) with
      | error msg => simp only [hcpl]; left; rfl
      | ok exec =>
          have hvalid := hc _ _ _ hcpl
          simp only [hcpl]
          right
          refine ⟨exec, hvalid, ?_⟩
          by_cases hcap : (PCREEngine.findAllLoop exec t PCREEngine.MAX_ITERATIONS 0 []).snd = 0
            ∧ (PCREEngine.findAllLoop exec t PCREEngine.MAX_ITERATIONS 0 []).fst.length > 0
          · rw [if_pos hcap]
            rfl
          · rw [if_neg hcap]
            rfl

end PcreLoopLemmas

section PcreMatcherValidity

theorem pcreEmptyEverywhere_valid : PCREEngine.ExecValid pcreEmptyEverywhere := by
  intro text pos r h _
  unfold pcreEmptyEverywhere at h
  by_cases hp : pos ≤ text.length
  · rw [if_pos hp] at h
    injection h with h2
    subst h2
    exact ⟨Nat.le_refl _, Nat.le_refl _, hp, by simp [listSlice]⟩
  · rw [if_neg hp] at h
    exact Option.noConfusion h

theorem pcreEmptyCompile_valid : PCREEngine.CompileValid pcreEmptyCompile := by
  intro p o exec h
  injection h with h2
  rw [← h2]
  exact pcreEmptyEverywhere_valid

theorem litQuick_valid (pat : List Char) : PCREEngine.QuickValid (litQuick pat) := by
  intro p text o r h _
  unfold litQuick at h
  cases hf : litFind pat text 0 with
  | none => rw [hf] at h; exact Option.noConfusion h
  | some m =>
      rw [hf] at h
      simp only [Option.map] at h
      injection h with h2
      obtain ⟨_, h3, hstr⟩ := litFind_valid pat text 0 m hf
      subst h2
      refine ⟨Nat.le_add_right _ _, h3, ?_⟩
      simpa [Nat.add_sub_cancel_left] using hstr

end PcreMatcherValidity

/-
  Claims.
-/

/-- Claim C1, counterexample. The claim says the facade never throws for
    matching operations and instead returns a MatchResult whose failure has
    kind validation. In the source, EngineFactory.test calls validatePattern
    outside every try block, so a null pattern makes the facade throw (the
    async method rejects): in the embedding the call is an Except.error, not a
    result object, and no validation failure kind exists anywhere. -/
theorem c1_counterexample :
    EngineFactory.test litCompile (EngineFactory.initializedFactory ⟨false, false, false⟩)
        "javascript" .jsNull (.str ['x']) (.str [])
      = .error "Pattern cannot be null or undefined" := by
  rfl

/-- Claim C1 as amended: for matching operations the facade throws (rejects)
    on every non-string pattern or text, null and undefined included, with the
    Error messages of validatePattern/validateText; it is only around the
    adapter call itself that exceptions are converted into a result object,
    and since the adapters catch all their errors internally, a call with
    string inputs on the registered javascript engine returns the adapter
    result and never throws. -/
theorem c1_facade_validation_behavior (compile : JSEngine.JsCompile)
    (st : EngineFactory.FactoryState) (en : String)
    (tv fv : EngineFactory.JSVal) (p t : List Char) :
    (EngineFactory.test compile st en .jsNull tv fv
      = .error "Pattern cannot be null or undefined") ∧
    (EngineFactory.test compile st en .jsUndefined tv fv
      = .error "Pattern cannot be null or undefined") ∧
    (∀ n : Int, EngineFactory.test compile st en (.num n) tv fv
      = .error "Pattern must be a string") ∧
    (EngineFactory.test compile st en (.str p) .jsNull fv
      = .error "Text cannot be null or undefined") ∧
    (∀ n : Int, EngineFactory.test compile st en (.str p) (.num n) fv
      = .error "Text must be a string") ∧
    (EngineFactory.findAll compile st en .jsNull tv fv
      = .error "Pattern cannot be null or undefined") ∧
    (EngineFactory.replace compile st en .jsNull tv fv fv
      = .error "Pattern cannot be null or undefined") ∧
    (EngineFactory.test compile (EngineFactory.initializedFactory st.options)
        "javascript" (.str p) (.str t) .jsUndefined
      = .ok (JSEngine.test compile p t [])) ∧
    (EngineFactory.findAll compile (EngineFactory.initializedFactory st.options)
        "javascript" (.str p) (.str t) .jsUndefined
      = .ok (JSEngine.findAll compile p t [])) := by
  refine ⟨rfl, rfl, fun n => rfl, rfl, fun n => rfl, rfl, rfl, ?_, ?_⟩ <;> rfl

/-- Claim C2, counterexample. The claim says an unknown engine yields a
    MatchResult with failure kind unknown-engine. In the source, getEngine
    throws an Error instead; the facade returns no result object at all. -/
theorem c2_counterexample :
    EngineFactory.test litCompile (EngineFactory.initializedFactory ⟨false, false, false⟩)
        "pcre" (.str ['a']) (.str ['a']) (.str [])
      = .error ("Engine " ++ EngineFactory.quote ++ "pcre" ++ EngineFactory.quote
          ++ " not available. Available engines: javascript") := by
  rfl

/-- Claim C2 as amended: for a name whose alias resolution yields a canonical
    engine with no registered adapter, the facade throws an Error whose
    message lists getAvailableEngines() at call time; for a name the alias
    table does not know, normalizeEngineName throws first and its message
    lists the static alias-table keys javascript, pcre regardless of which
    engines are actually available. No MatchResult is produced either way. -/
theorem c2_unknown_engine_behavior (compile : JSEngine.JsCompile)
    (opts : EngineFactory.FactoryOptions) (name : String) (p t : List Char)
    (hname : EngineFactory.normalizeEngineName name = .ok "pcre") :
    EngineFactory.test compile (EngineFactory.initializedFactory opts) name
        (.str p) (.str t) .jsUndefined
      = .error ("Engine " ++ EngineFactory.quote ++ name ++ EngineFactory.quote
          ++ " not available. Available engines: "
          ++ EngineFactory.joinComma (EngineFactory.getAvailableEngines
              (EngineFactory.initializedFactory opts))) := by
  unfold EngineFactory.test
  unfold EngineFactory.getEngine
  simp only [EngineFactory.initializedFactory, hname]
  rfl

/-- witness for c2_unknown_engine_behavior at the alias perl -/
theorem c2_unknown_engine_behavior_witness :
    EngineFactory.test litCompile
        (EngineFactory.initializedFactory ⟨true, false, false⟩) "perl"
        (.str ['a']) (.str ['b']) .jsUndefined
      = .error ("Engine " ++ EngineFactory.quote ++ "perl" ++ EngineFactory.quote
          ++ " not available. Available engines: "
          ++ EngineFactory.joinComma (EngineFactory.getAvailableEngines
              (EngineFactory.initializedFactory ⟨true, false, false⟩))) :=
  c2_unknown_engine_behavior litCompile ⟨true, false, false⟩ "perl" ['a'] ['b']
    (by decide)

theorem pcre_nextOffset_eq (r : PCREEngine.PcreRaw) :
    PCREEngine.nextOffset r =
      if r.start = r.endIdx then (if r.endIdx = 0 then r.start + 1 else r.endIdx) + 1
      else (if r.endIdx = 0 then r.start + 1 else r.endIdx) := by
  unfold PCREEngine.nextOffset PCREEngine.jsNumOr
  rfl

/-- Claim C3, counterexample. The claim says that after a zero-length match at
    offset i the next search position is i+1 for both engines. The PCRE
    adapter computes offset = result.end || (result.start + 1) and then
    increments it for a zero-length match; at offset 0 the end offset 0 is
    falsy, so the next position is 2, not 1. The run below shows the effect: a
    matcher with a zero-length match at every position yields only the match
    at 0 on a two-character subject, although position 1 also matches. -/
theorem c3_counterexample :
    PCREEngine.nextOffset
        { success := true, start := 0, endIdx := 0, mstr := [], groups := [], named := [] }
      = 2 ∧
    (PCREEngine.findAll pcreEmptyCompile ['x'] ['a', 'b'] []).matches'.map
        FormattedMatch.index = [0] ∧
    pcreEmptyEverywhere ['a', 'b'] 1
      = some { success := true, start := 1, endIdx := 1, mstr := [],
               groups := [], named := [] } := by
  refine ⟨by decide, by decide, by decide⟩

/-- Claim C3 as amended: findAll of both adapters terminates and produces at
    most length(text)+1 matches for every valid matcher; after a zero-length
    match at offset i the JavaScript adapter always continues from i+1, and
    the PCRE adapter continues from i+1 when i is positive but from 2 when
    i = 0, because result.end is falsy there; in every case the next position
    is strictly beyond i, so the loops cannot revisit a position. -/
theorem c3_zero_length_advancement (compile : JSEngine.JsCompile)
    (pc : PCREEngine.PcreCompile)
    (hc : JSEngine.CompileValid compile) (hpc : PCREEngine.CompileValid pc)
    (p t f : List Char)
    (m : JSEngine.RawMatch) (hm : m.start = m.endPos)
    (r1 : PCREEngine.PcreRaw) (hr1 : r1.start = r1.endIdx) (hr1p : 0 < r1.start)
    (r0 : PCREEngine.PcreRaw) (hr0s : r0.start = 0) (hr0e : r0.endIdx = 0) :
    (JSEngine.findAll compile p t f).matches'.length ≤ t.length + 1 ∧
    (PCREEngine.findAll pc p t f).matches'.length ≤ t.length + 1 ∧
    JSEngine.nextPos m = m.start + 1 ∧
    PCREEngine.nextOffset r1 = r1.start + 1 ∧
    PCREEngine.nextOffset r0 = 2 ∧
    m.start < JSEngine.nextPos m ∧
    r1.start < PCREEngine.nextOffset r1 ∧
    r0.start < PCREEngine.nextOffset r0 := by
  have hjs : (JSEngine.findAll compile p t f).matches'.length ≤ t.length + 1 := by
    rcases jsFindAll_matches_cases compile hc p t f with h | ⟨exec, hv, h⟩
    · rw [h]; simp
    · rw [h]
      obtain ⟨hspan, hpair⟩ := jsLoop_invariant exec t hv JSEngine.MAX_ITERATIONS 0 []
        (by simp) (by simp) (by simp)
      have hbound : ∀ x ∈ ((JSEngine.findAllLoop exec t
          JSEngine.MAX_ITERATIONS 0 []).list.map FormattedMatch.index), x ≤ t.length := by
        intro x hx
        rcases List.mem_map.mp hx with ⟨fm, hfm, rfl⟩
        have := (hspan fm hfm).2
        omega
      have := length_le_of_pairwise_lt_le _ t.length hpair hbound
      simpa using this
  have hpcre : (PCREEngine.findAll pc p t f).matches'.length ≤ t.length + 1 := by
    rcases pcreFindAll_matches_cases pc hpc p t f with h | ⟨exec, hv, h⟩
    · rw [h]; simp
    · rw [h]
      obtain ⟨hspan, hpair⟩ := pcreLoop_invariant exec t hv PCREEngine.MAX_ITERATIONS 0 []
        (by simp) (by simp) (by simp)
      have hbound : ∀ x ∈ ((PCREEngine.findAllLoop exec t
          PCREEngine.MAX_ITERATIONS 0 []).fst.map FormattedMatch.index), x ≤ t.length := by
        intro x hx
        rcases List.mem_map.mp hx with ⟨fm, hfm, rfl⟩
        have := (hspan fm hfm).2
        omega
      have := length_le_of_pairwise_lt_le _ t.length hpair hbound
      simpa using this
  have hjsadv : JSEngine.nextPos m = m.start + 1 := by
    unfold JSEngine.nextPos
    rw [if_pos hm, ← hm]
  have hr1adv : PCREEngine.nextOffset r1 = r1.start + 1 := by
    rw [pcre_nextOffset_eq, if_pos hr1, if_neg (by omega)]
    omega
  have hr0adv : PCREEngine.nextOffset r0 = 2 := by
    rw [pcre_nextOffset_eq, if_pos (by omega), if_pos hr0e]
    omega
  refine ⟨hjs, hpcre, hjsadv, hr1adv, hr0adv, ?_, ?_, ?_⟩
  · omega
  · omega
  · omega

/-- witness for c3_zero_length_advancement on concrete matchers and matches -/
theorem c3_zero_length_advancement_witness :
    (JSEngine.findAll litCompile ['a'] ['b', 'a'] []).matches'.length
        ≤ (['b', 'a'] : List Char).length + 1 ∧
    (PCREEngine.findAll pcreEmptyCompile ['a'] ['b', 'a'] []).matches'.length
        ≤ (['b', 'a'] : List Char).length + 1 ∧
    JSEngine.nextPos ⟨3, [], [], []⟩ = 3 + 1 ∧
    PCREEngine.nextOffset ⟨true, 3, 3, [], [], []⟩ = 3 + 1 ∧
    PCREEngine.nextOffset ⟨true, 0, 0, [], [], []⟩ = 2 ∧
    (3 : Nat) < JSEngine.nextPos ⟨3, [], [], []⟩ ∧
    (3 : Nat) < PCREEngine.nextOffset ⟨true, 3, 3, [], [], []⟩ ∧
    (0 : Nat) < PCREEngine.nextOffset ⟨true, 0, 0, [], [], []⟩ :=
  c3_zero_length_advancement litCompile pcreEmptyCompile litCompile_valid
    pcreEmptyCompile_valid ['a'] ['b', 'a'] [] ⟨3, [], [], []⟩ (by decide)
    ⟨true, 3, 3, [], [], []⟩ (by decide) (by decide)
    ⟨true, 0, 0, [], [], []⟩ (by decide) (by decide)

theorem jsFindAll_tooMany_shape (compile : JSEngine.JsCompile) (p t f s : List Char)
    (exec : JSEngine.JsExec) (ms : List FormattedMatch)
    (hs : JSEngine.validateAndSanitizeFlags f = .ok s)
    (hcpl : compile p (if 'g' ∈ s then s else s ++ ['g']) = .ok exec)
    (hloop : JSEngine.findAllLoop exec t JSEngine.MAX_ITERATIONS 0 [] = .tooMany ms)
    (hne : ms.length > 0) :
    JSEngine.findAll compile p t f
      = createResult JSEngine.ENGINE_NAME true p (if 'g' ∈ s then s else s ++ ['g']) t ms
          (some (createError JSEngine.tooManyMessage
            "partial execution - some matches found")) := by
  unfold JSEngine.findAll
  rw [hs]
  simp only [hcpl, hloop, if_pos hne]

/-- Claim C4 as amended: whenever the findAll iteration cap fires with matches
    already collected, the result keeps those matches, reports success true,
    their number is exactly MAX_ITERATIONS = 10000, and the attached error is
    the source error object: message naming the cap, constructor Error, and
    the operation label marking partial execution. The source result has no
    kind field; the resource-limit condition is identified only by these
    strings. -/
theorem c4_resource_limit_partial (compile : JSEngine.JsCompile) (p t f s : List Char)
    (exec : JSEngine.JsExec) (ms : List FormattedMatch)
    (hs : JSEngine.validateAndSanitizeFlags f = .ok s)
    (hcpl : compile p (if 'g' ∈ s then s else s ++ ['g']) = .ok exec)
    (hloop : JSEngine.findAllLoop exec t JSEngine.MAX_ITERATIONS 0 [] = .tooMany ms)
    (hne : ms.length > 0) :
    (JSEngine.findAll compile p t f).success = true ∧
    (JSEngine.findAll compile p t f).matches' = ms ∧
    ms.length = JSEngine.MAX_ITERATIONS ∧
    (JSEngine.findAll compile p t f).error
      = some { message := JSEngine.tooManyMessage, etype := "Error",
               operation := "partial execution - some matches found" } := by
  have hres := jsFindAll_tooMany_shape compile p t f s exec ms hs hcpl hloop hne
  have hlen : ms.length = JSEngine.MAX_ITERATIONS := by
    have := jsLoop_tooMany_length exec t JSEngine.MAX_ITERATIONS 0 [] ms hloop
    simpa using this
  exact ⟨by rw [hres]; rfl, by rw [hres]; rfl, hlen, by rw [hres]; rfl⟩

/-- witness for c4_resource_limit_partial: a matcher with a zero-length match
    everywhere against a subject of 10000 characters overruns the cap -/
theorem c4_resource_limit_partial_witness :
    (JSEngine.findAll emptyCompile ['x'] longText []).success = true ∧
    (JSEngine.findAll emptyCompile ['x'] longText []).matches'
        = emptyMatchesFrom longText 0 JSEngine.MAX_ITERATIONS ∧
    (emptyMatchesFrom longText 0 JSEngine.MAX_ITERATIONS).length
        = JSEngine.MAX_ITERATIONS ∧
    (JSEngine.findAll emptyCompile ['x'] longText []).error
      = some { message := JSEngine.tooManyMessage, etype := "Error",
               operation := "partial execution - some matches found" } :=
  c4_resource_limit_partial emptyCompile ['x'] longText [] [] emptyEverywhere
    (emptyMatchesFrom longText 0 JSEngine.MAX_ITERATIONS)
    (by rfl) (by rfl)
    (by
      have hlen : longText.length = JSEngine.MAX_ITERATIONS := by simp [longText]
      have h := jsLoop_empty_run longText JSEngine.MAX_ITERATIONS 0 []
        (by omega) (by rw [hlen]; omega)
      simpa using h)
    (by rw [emptyMatchesFrom_length]; decide)

/-- Claim C4, counterexample. At a concrete cap-overrunning input the result
    does carry success true and cap-many matches, but its error is the plain
    source error object with fields message, type, operation; there is no kind
    field and none of the components is the string resource-limit, so
    failure.kind == resource-limit is false of the code. -/
theorem c4_counterexample :
    (JSEngine.findAll emptyCompile ['x'] longText []).success = true ∧
    (JSEngine.findAll emptyCompile ['x'] longText []).matches'.length = 10000 ∧
    (JSEngine.findAll emptyCompile ['x'] longText []).error
      = some { message := JSEngine.tooManyMessage, etype := "Error",
               operation := "partial execution - some matches found" } ∧
    JSEngine.tooManyMessage ≠ "resource-limit" ∧
    ("partial execution - some matches found" : String) ≠ "resource-limit" ∧
    ("Error" : String) ≠ "resource-limit" := by
  have hlen : longText.length = JSEngine.MAX_ITERATIONS := by simp [longText]
  have hloop := jsLoop_empty_run longText JSEngine.MAX_ITERATIONS 0 []
    (by omega) (by rw [hlen]; omega)
  simp only [List.nil_append] at hloop
  have h := jsFindAll_tooMany_shape emptyCompile ['x'] longText [] [] emptyEverywhere
    (emptyMatchesFrom longText 0 JSEngine.MAX_ITERATIONS)
    (by rfl) (by rfl) hloop (by rw [emptyMatchesFrom_length]; decide)
  refine ⟨by rw [h]; rfl, ?_, by rw [h]; rfl, by decide, by decide, by decide⟩
  rw [h]
  show (emptyMatchesFrom longText 0 JSEngine.MAX_ITERATIONS).length = 10000
  rw [emptyMatchesFrom_length]
  rfl

/-- Claim C5: findAll means all matches regardless of the caller passing g.
    The JavaScript adapter appends g to the sanitized flags when absent, so
    findAll on valid flags f and on f with g appended produce identical
    results, match list included. The PCRE adapter iterates explicitly and
    never consults g, so its match list is likewise unchanged. -/
theorem c5_findAll_forces_global (compile : JSEngine.JsCompile)
    (pc : PCREEngine.PcreCompile) (p t f fp : List Char)
    (h : ∀ c ∈ f, c ∈ JSEngine.SUPPORTED_FLAGS)
    (hp : ∀ c ∈ fp, c ∈ PCREEngine.SUPPORTED_FLAGS) :
    JSEngine.findAll compile p t f = JSEngine.findAll compile p t (f ++ ['g']) ∧
    (PCREEngine.findAll pc p t fp).matches'
      = (PCREEngine.findAll pc p t (fp ++ ['g'])).matches' := by
  constructor
  · have h2 : ∀ c ∈ f ++ ['g'], c ∈ JSEngine.SUPPORTED_FLAGS := by
      intro c hc
      rcases List.mem_append.mp hc with hc | hc
      · exact h c hc
      · rcases List.mem_singleton.mp hc with rfl
        decide
    have e1 := jsSanitize_ok f h
    have e2 := jsSanitize_ok (f ++ ['g']) h2
    unfold JSEngine.findAll
    simp only [e1, e2]
    rw [globalFlags_append_g]
  · have hp2 : ∀ c ∈ fp ++ ['g'], c ∈ PCREEngine.SUPPORTED_FLAGS := by
      intro c hc
      rcases List.mem_append.mp hc with hc | hc
      · exact hp c hc
      · rcases List.mem_singleton.mp hc with rfl
        decide
    have e1 := pcreSanitize_ok fp hp
    have e2 := pcreSanitize_ok (fp ++ ['g']) hp2
    have hopts : PCREEngine.convertFlags (dedupKeepFirst (fp ++ ['g']))
        = PCREEngine.convertFlags (dedupKeepFirst fp) := by
      unfold PCREEngine.convertFlags
      simp [mem_dedupKeepFirst]
    unfold PCREEngine.findAll
    simp only [e1, e2, hopts]
    cases hres : pc p (PCREEngine.convertFlags (dedupKeepFirst fp)) with
    | error msg => rfl
    | ok exec =>
        dsimp only
        by_cases hcap : (PCREEngine.findAllLoop exec t PCREEngine.MAX_ITERATIONS 0 []).snd = 0
            ∧ (PCREEngine.findAllLoop exec t PCREEngine.MAX_ITERATIONS 0 []).fst.length > 0
        · rw [if_pos hcap, if_pos hcap]
          rfl
        · rw [if_neg hcap, if_neg hcap]
          rfl

/-- witness for c5_findAll_forces_global at the flags i and m -/
theorem c5_findAll_forces_global_witness :
    JSEngine.findAll litCompile ['a'] ['b', 'a'] ['i']
        = JSEngine.findAll litCompile ['a'] ['b', 'a'] (['i'] ++ ['g']) ∧
    (PCREEngine.findAll pcreEmptyCompile ['a'] ['b', 'a'] ['m']).matches'
        = (PCREEngine.findAll pcreEmptyCompile ['a'] ['b', 'a'] (['m'] ++ ['g'])).matches' :=
  c5_findAll_forces_global litCompile pcreEmptyCompile ['a'] ['b', 'a'] ['i'] ['m']
    (by decide) (by decide)

/-- Claim C6: every match recorded by test or findAll of either adapter
    round-trips its span: its fullMatch equals the subject slice from its
    index of its length, and the span lies inside the subject. -/
theorem c6_span_roundtrip (compile : JSEngine.JsCompile)
    (pc : PCREEngine.PcreCompile) (quick : PCREEngine.QuickMatch)
    (hc : JSEngine.CompileValid compile) (hpc : PCREEngine.CompileValid pc)
    (hq : PCREEngine.QuickValid quick) (p t f : List Char) :
    (∀ fm ∈ (JSEngine.test compile p t f).matches', SpanOk t fm) ∧
    (∀ fm ∈ (JSEngine.findAll compile p t f).matches', SpanOk t fm) ∧
    (∀ fm ∈ (PCREEngine.test quick p t f).matches', SpanOk t fm) ∧
    (∀ fm ∈ (PCREEngine.findAll pc p t f).matches', SpanOk t fm) := by
  refine ⟨?_, ?_, ?_, ?_⟩
  · unfold JSEngine.test
    cases hs : JSEngine.validateAndSanitizeFlags f with
    | error msg => simp [createResult]
    | ok s =>
        cases hcpl : compile p s with
        | error msg => simp [hcpl, createResult]
        | ok exec =>
            cases hex : exec t 0 with
            | none => simp [hcpl, hex, createResult]
            | some m =>
                simp only [hcpl, hex, List.mem_singleton, createResult]
                intro fm hfm
                subst hfm
                obtain ⟨_, hend, hstr⟩ := hc _ _ _ hcpl t 0 m hex
                exact ⟨hstr, hend⟩
  · rcases jsFindAll_matches_cases compile hc p t f with h | ⟨exec, hv, h⟩
    · rw [h]; simp
    · rw [h]
      exact (jsLoop_invariant exec t hv JSEngine.MAX_ITERATIONS 0 []
        (by simp) (by simp) (by simp)).1
  · unfold PCREEngine.test
    cases hs : PCREEngine.validateAndSanitizeFlags f with
    | error msg => simp [createResult]
    | ok s =>
        cases hqm : quick p t (PCREEngine.convertFlags s) with
        | none => simp [hqm, createResult]
        | some r =>
            cases hsucc : r.success with
            | false => simp [hqm, hsucc, createResult]
            | true =>
                simp only [hqm, hsucc, Bool.true_eq_false, if_false, createResult]
                intro fm hfm
                rcases List.mem_singleton.mp hfm with rfl
                obtain ⟨hse, hlen, hstr⟩ := hq _ _ _ _ hqm hsucc
                exact (pcre_formatMatch_span t r hse hlen hstr).1
  · rcases pcreFindAll_matches_cases pc hpc p t f with h | ⟨exec, hv, h⟩
    · rw [h]; simp
    · rw [h]
      exact (pcreLoop_invariant exec t hv PCREEngine.MAX_ITERATIONS 0 []
        (by simp) (by simp) (by simp)).1

/-- witness for c6_span_roundtrip: the single match of a literal search -/
theorem c6_span_roundtrip_witness :
    SpanOk ['b', 'a'] (JSEngine.formatMatch ['b', 'a'] ⟨1, ['a'], [], []⟩) :=
  (c6_span_roundtrip litCompile pcreEmptyCompile (litQuick ['a']) litCompile_valid
      pcreEmptyCompile_valid (litQuick_valid ['a']) ['a'] ['b', 'a'] []).1
    _ (by decide)

/-- Claim C7: the match lists of findAll are strictly increasing in
    startIndex, for both adapters: produced left to right, no overlap of
    recorded start positions, no reordering. -/
theorem c7_left_to_right (compile : JSEngine.JsCompile) (pc : PCREEngine.PcreCompile)
    (hc : JSEngine.CompileValid compile) (hpc : PCREEngine.CompileValid pc)
    (p t f : List Char) :
    ((JSEngine.findAll compile p t f).matches'.map FormattedMatch.index).Pairwise (· < ·) ∧
    ((PCREEngine.findAll pc p t f).matches'.map FormattedMatch.index).Pairwise (· < ·) := by
  constructor
  · rcases jsFindAll_matches_cases compile hc p t f with h | ⟨exec, hv, h⟩
    · rw [h]; simp
    · rw [h]
      exact (jsLoop_invariant exec t hv JSEngine.MAX_ITERATIONS 0 []
        (by simp) (by simp) (by simp)).2
  · rcases pcreFindAll_matches_cases pc hpc p t f with h | ⟨exec, hv, h⟩
    · rw [h]; simp
    · rw [h]
      exact (pcreLoop_invariant exec t hv PCREEngine.MAX_ITERATIONS 0 []
        (by simp) (by simp) (by simp)).2

/-- witness for c7_left_to_right on a two-match subject -/
theorem c7_left_to_right_witness :
    ((JSEngine.findAll litCompile ['a'] ['a', 'b', 'a'] []).matches'.map
        FormattedMatch.index).Pairwise (· < ·) ∧
    ((PCREEngine.findAll pcreEmptyCompile ['a'] ['a', 'b', 'a'] []).matches'.map
        FormattedMatch.index).Pairwise (· < ·) :=
  c7_left_to_right litCompile pcreEmptyCompile litCompile_valid
    pcreEmptyCompile_valid ['a'] ['a', 'b', 'a'] []

/-- Claim C8: replace substitutes only the first match when the flags do not
    contain g and every non-overlapping match left to right when they do:
    with the compiled literal pattern a against subject aaa and replacement b,
    empty flags give baa and flags g give bbb, both successful. -/
theorem c8_replace_first_vs_all :
    (JSEngine.replace litCompile ['a'] ['a', 'a', 'a'] ['b'] []).result
        = ['b', 'a', 'a'] ∧
    (JSEngine.replace litCompile ['a'] ['a', 'a', 'a'] ['b'] ['g']).result
        = ['b', 'b', 'b'] ∧
    (JSEngine.replace litCompile ['a'] ['a', 'a', 'a'] ['b'] []).success = true ∧
    (JSEngine.replace litCompile ['a'] ['a', 'a', 'a'] ['b'] ['g']).success = true := by
  refine ⟨by decide, by decide, by decide, by decide⟩

/-- Claim C9, counterexample. The claim says the wall-clock timeout and the
    iteration cap are configuration the facade can override per invocation.
    In the source they are constants, the factory options carry only
    quiet/json/debug, the matching methods take no limit argument, and a
    facade call returns the identical result under every option
    configuration: no override channel exists. -/
theorem c9_counterexample :
    JSEngine.capabilitiesPerformance = ⟨5000, 10000⟩ ∧
    PCREEngine.capabilitiesPerformance = ⟨10000, 5000⟩ ∧
    EngineFactory.findAll litCompile
        (EngineFactory.initializedFactory ⟨true, true, true⟩)
        "js" (.str ['a']) (.str ['a', 'b']) .jsUndefined
      = EngineFactory.findAll litCompile
        (EngineFactory.initializedFactory ⟨false, false, false⟩)
        "js" (.str ['a']) (.str ['a', 'b']) .jsUndefined := by
  refine ⟨rfl, rfl, rfl⟩

/-- Claim C9 as amended: the limits are hard constants of each adapter, not
    per-invocation configuration: the standard adapter enforces 5000 ms and
    10000 iterations and the extended adapter 10000 ms and 5000 iterations,
    exactly the values their capability reports carry; the facade options are
    quiet/json/debug only and every matching operation returns the identical
    result whatever options the factory was built with. -/
theorem c9_limits_are_constants (compile : JSEngine.JsCompile)
    (o1 o2 : EngineFactory.FactoryOptions) (en : String)
    (pv tv fv rv : EngineFactory.JSVal) :
    JSEngine.capabilitiesPerformance.timeoutMs = 5000 ∧
    JSEngine.capabilitiesPerformance.maxIterations = JSEngine.MAX_ITERATIONS ∧
    JSEngine.MAX_ITERATIONS = 10000 ∧
    PCREEngine.capabilitiesPerformance.timeoutMs = PCREEngine.TIMEOUT_MS ∧
    PCREEngine.TIMEOUT_MS = 10000 ∧
    PCREEngine.capabilitiesPerformance.maxIterations = PCREEngine.MAX_ITERATIONS ∧
    PCREEngine.MAX_ITERATIONS = 5000 ∧
    EngineFactory.test compile (EngineFactory.initializedFactory o1) en pv tv fv
      = EngineFactory.test compile (EngineFactory.initializedFactory o2) en pv tv fv ∧
    EngineFactory.findAll compile (EngineFactory.initializedFactory o1) en pv tv fv
      = EngineFactory.findAll compile (EngineFactory.initializedFactory o2) en pv tv fv ∧
    EngineFactory.replace compile (EngineFactory.initializedFactory o1) en pv tv rv fv
      = EngineFactory.replace compile (EngineFactory.initializedFactory o2) en pv tv rv fv := by
  refine ⟨rfl, rfl, rfl, rfl, rfl, rfl, rfl, rfl, rfl, rfl⟩

theorem globalFlags_nodup (f : List Char) :
    (if 'g' ∈ dedupKeepFirst f then dedupKeepFirst f
     else dedupKeepFirst f ++ ['g']).Nodup := by
  by_cases hg : 'g' ∈ dedupKeepFirst f
  · rw [if_pos hg]
    exact nodup_dedupKeepFirst f
  · rw [if_neg hg]
    rw [List.nodup_append]
    refine ⟨nodup_dedupKeepFirst f, List.nodup_singleton _, ?_⟩
    intro a ha hb
    rcases List.mem_singleton.mp hb with rfl
    exact hg ha

/-- Claim C10: both adapters accept a flags string of supported characters
    with repetitions and deduplicate it before compiling, keeping first
    occurrences: sanitization succeeds and is idempotent, its output has no
    duplicate, test, findAll and replace behave exactly as with the
    deduplicated flags, and the flags echoed in results carry each character
    at most once. -/
theorem c10_flag_dedup (compile : JSEngine.JsCompile) (pc : PCREEngine.PcreCompile)
    (quick : PCREEngine.QuickMatch) (p t rep f fp : List Char)
    (hjs : ∀ c ∈ f, c ∈ JSEngine.SUPPORTED_FLAGS)
    (hpcre : ∀ c ∈ fp, c ∈ PCREEngine.SUPPORTED_FLAGS) :
    JSEngine.validateAndSanitizeFlags f = .ok (dedupKeepFirst f) ∧
    (dedupKeepFirst f).Nodup ∧
    JSEngine.validateAndSanitizeFlags (dedupKeepFirst f) = .ok (dedupKeepFirst f) ∧
    JSEngine.test compile p t f = JSEngine.test compile p t (dedupKeepFirst f) ∧
    JSEngine.findAll compile p t f = JSEngine.findAll compile p t (dedupKeepFirst f) ∧
    JSEngine.replace compile p t rep f
      = JSEngine.replace compile p t rep (dedupKeepFirst f) ∧
    (JSEngine.test compile p t f).flags.Nodup ∧
    (JSEngine.findAll compile p t f).flags.Nodup ∧
    PCREEngine.validateAndSanitizeFlags fp = .ok (dedupKeepFirst fp) ∧
    PCREEngine.validateAndSanitizeFlags (dedupKeepFirst fp) = .ok (dedupKeepFirst fp) ∧
    PCREEngine.test quick p t fp = PCREEngine.test quick p t (dedupKeepFirst fp) ∧
    PCREEngine.findAll pc p t fp = PCREEngine.findAll pc p t (dedupKeepFirst fp) ∧
    PCREEngine.replace pc p t rep fp
      = PCREEngine.replace pc p t rep (dedupKeepFirst fp) ∧
    (PCREEngine.test quick p t fp).flags.Nodup := by
  have e1 := jsSanitize_ok f hjs
  have hjs2 : ∀ c ∈ dedupKeepFirst f, c ∈ JSEngine.SUPPORTED_FLAGS :=
    fun c hc => hjs c ((mem_dedupKeepFirst c f).mp hc)
  have e3 := jsSanitize_ok (dedupKeepFirst f) hjs2
  rw [dedupKeepFirst_idem] at e3
  have e1p := pcreSanitize_ok fp hpcre
  have hpcre2 : ∀ c ∈ dedupKeepFirst fp, c ∈ PCREEngine.SUPPORTED_FLAGS :=
    fun c hc => hpcre c ((mem_dedupKeepFirst c fp).mp hc)
  have e3p := pcreSanitize_ok (dedupKeepFirst fp) hpcre2
  rw [dedupKeepFirst_idem] at e3p
  refine ⟨e1, nodup_dedupKeepFirst f, e3, ?_, ?_, ?_, ?_, ?_, e1p, e3p, ?_, ?_, ?_, ?_⟩
  · unfold JSEngine.test
    simp only [e1, e3]
  · unfold JSEngine.findAll
    simp only [e1, e3]
  · unfold JSEngine.replace
    simp only [e1, e3]
  · unfold JSEngine.test
    simp only [e1]
    cases hcpl : compile p (dedupKeepFirst f) with
    | error msg => exact nodup_dedupKeepFirst f
    | ok exec =>
        cases hex : exec t 0 with
        | none => simp only [hex]; exact nodup_dedupKeepFirst f
        | some m => simp only [hex]; exact nodup_dedupKeepFirst f
  · unfold JSEngine.findAll
    simp only [e1]
    cases hcpl : compile p (if 'g' ∈ dedupKeepFirst f then dedupKeepFirst f
        else dedupKeepFirst f ++ ['g']) with
    | error msg => exact globalFlags_nodup f
    | ok exec =>
        cases hloop : JSEngine.findAllLoop exec t JSEngine.MAX_ITERATIONS 0 [] with
        | finished ms => simp only [hloop]; exact globalFlags_nodup f
        | tooMany ms =>
            simp only [hloop]
            by_cases hms : ms.length > 0
            · rw [if_pos hms]
              exact globalFlags_nodup f
            · rw [if_neg hms]
              exact globalFlags_nodup f
  · unfold PCREEngine.test
    simp only [e1p, e3p]
  · unfold PCREEngine.findAll
    simp only [e1p, e3p]
  · unfold PCREEngine.replace
    simp only [e1p, e3p]
  · unfold PCREEngine.test
    simp only [e1p]
    cases hqm : quick p t (PCREEngine.convertFlags (dedupKeepFirst fp)) with
    | none => simp only [hqm]; exact nodup_dedupKeepFirst fp
    | some r =>
        cases hsucc : r.success with
        | false => simp only [hqm, hsucc]; exact nodup_dedupKeepFirst fp
        | true => simp only [hqm, hsucc]; exact nodup_dedupKeepFirst fp

/-- witness for c10_flag_dedup at the duplicated flags string gg -/
theorem c10_flag_dedup_witness :
    JSEngine.validateAndSanitizeFlags ['g', 'g'] = .ok (dedupKeepFirst ['g', 'g']) ∧
    (dedupKeepFirst ['g', 'g']).Nodup ∧
    JSEngine.validateAndSanitizeFlags (dedupKeepFirst ['g', 'g'])
      = .ok (dedupKeepFirst ['g', 'g']) ∧
    JSEngine.test litCompile ['a'] ['b', 'a'] ['g', 'g']
      = JSEngine.test litCompile ['a'] ['b', 'a'] (dedupKeepFirst ['g', 'g']) ∧
    JSEngine.findAll litCompile ['a'] ['b', 'a'] ['g', 'g']
      = JSEngine.findAll litCompile ['a'] ['b', 'a'] (dedupKeepFirst ['g', 'g']) ∧
    JSEngine.replace litCompile ['a'] ['b', 'a'] ['c'] ['g', 'g']
      = JSEngine.replace litCompile ['a'] ['b', 'a'] ['c'] (dedupKeepFirst ['g', 'g']) ∧
    (JSEngine.test litCompile ['a'] ['b', 'a'] ['g', 'g']).flags.Nodup ∧
    (JSEngine.findAll litCompile ['a'] ['b', 'a'] ['g', 'g']).flags.Nodup ∧
    PCREEngine.validateAndSanitizeFlags ['g', 'g'] = .ok (dedupKeepFirst ['g', 'g']) ∧
    PCREEngine.validateAndSanitizeFlags (dedupKeepFirst ['g', 'g'])
      = .ok (dedupKeepFirst ['g', 'g']) ∧
    PCREEngine.test (litQuick ['a']) ['a'] ['b', 'a'] ['g', 'g']
      = PCREEngine.test (litQuick ['a']) ['a'] ['b', 'a'] (dedupKeepFirst ['g', 'g']) ∧
    PCREEngine.findAll pcreEmptyCompile ['a'] ['b', 'a'] ['g', 'g']
      = PCREEngine.findAll pcreEmptyCompile ['a'] ['b', 'a'] (dedupKeepFirst ['g', 'g']) ∧
    PCREEngine.replace pcreEmptyCompile ['a'] ['b', 'a'] ['c'] ['g', 'g']
      = PCREEngine.replace pcreEmptyCompile ['a'] ['b', 'a'] ['c'] (dedupKeepFirst ['g', 'g']) ∧
    (PCREEngine.test (litQuick ['a']) ['a'] ['b', 'a'] ['g', 'g']).flags.Nodup :=
  c10_flag_dedup litCompile pcreEmptyCompile (litQuick ['a']) ['a'] ['b', 'a'] ['c']
    ['g', 'g'] ['g', 'g'] (by decide) (by decide)
